import Mathlib

/-
Verification of the RateYourGroupMates peer-rating application core:
the recap reducer of src/app/recap/page.tsx (fetchData: latestMap dedup
loop, group fallback, sort) and the submission form of the PeerRatingForm
component (Zod RatingSchema validation, cascading selector effects,
onSubmit insert-and-reset).

Modelling conventions:
- created_at is a timestamp string in the source, compared only through
  new Date(...); it is modelled as the parsed epoch value, a Nat.
- JS string comparison (localeCompare, specified as lexicographic) is
  modelled as lexicographic comparison of the character lists.
- A JS Map with string keys is modelled as an association list with
  insertion-order semantics: set on an existing key updates in place,
  set on a fresh key appends, values() yields insertion order.
- Array.prototype.sort is stable; under a consistent comparator the
  stable-sorted result is unique, so it is modelled by a stable
  insertion sort using the comparator translated to a Bool relation.
- JS numbers carried by the form (ratingScore) are modelled as rationals
  so that non-integer inputs are representable.
-/

/-- Row of project_groups as embedded in the recap join: the nested
object with group_id and group_name. -/
structure ProjectGroup where
  group_id : String
  group_name : String
deriving DecidableEq

/-- Participant attributes embedded in a recap row for the rater and the
ratee: nrp, full_name, group_id and the joined group (null when the
participant has no group). -/
structure ParticipantJoin where
  nrp : String
  full_name : String
  group_id : String
  group : Option ProjectGroup
deriving DecidableEq

/-- RawRatingRow of src/app/recap/page.tsx: one peer_ratings row joined
with rater and ratee participant and group attributes. -/
structure RawRatingRow where
  rating_id : Nat
  rater_id : String
  ratee_id : String
  rating_score : Int
  rating_comment : Option String
  created_at : Nat
  rater : ParticipantJoin
  ratee : ParticipantJoin
deriving DecidableEq

/-- RecapRow of src/app/recap/page.tsx: the flattened display row. -/
structure RecapRow where
  group_id : String
  group_name : String
  ratee_id : String
  ratee_name : String
  rater_id : String
  rater_name : String
  rating_score : Int
  rating_comment : Option String
  created_at : Nat
deriving DecidableEq

/-- Deduplication key of the latestMap loop: the template string
rater_id + "-" + ratee_id. -/
def ratingKey (r : RawRatingRow) : String :=
  r.rater_id ++ "-" ++ r.ratee_id

/-- Map.get of a JS Map modelled as an association list. -/
def mapGet : List (String × RawRatingRow) → String → Option RawRatingRow
  | [], _ => none
  | (k1, v) :: m, k => if k1 = k then some v else mapGet m k

/-- Map.set of a JS Map: updating an existing key keeps its insertion
position, a fresh key is appended at the end. -/
def mapSet : List (String × RawRatingRow) → String → RawRatingRow → List (String × RawRatingRow)
  | [], k, v => [(k, v)]
  | (k1, v1) :: m, k, v => if k1 = k then (k, v) :: m else (k1, v1) :: mapSet m k v

/-- One iteration of the latestMap loop of fetchData: keep the incoming
row iff the key is fresh or the incoming created_at is strictly greater
than the stored one. -/
def dedupStep (m : List (String × RawRatingRow)) (row : RawRatingRow) : List (String × RawRatingRow) :=
  match mapGet m (ratingKey row) with
  | none => mapSet m (ratingKey row) row
  | some existing =>
    if existing.created_at < row.created_at then mapSet m (ratingKey row) row else m

/-- The latestMap built by the dedup loop of fetchData over the fetched
rows in iteration order. -/
def latestMap (rawData : List RawRatingRow) : List (String × RawRatingRow) :=
  rawData.foldl dedupStep []

/-- Sentinel group used by fetchData when neither the ratee nor the
rater has a group. -/
def fallbackGroup : ProjectGroup :=
  { group_id := "N/A", group_name := "N/A" }

/-- The rows.map step of fetchData: resolve the display group as
row.ratee.group, else row.rater.group, else the sentinel, and flatten. -/
def toRecapRow (row : RawRatingRow) : RecapRow :=
  let group := (row.ratee.group.orElse fun _ => row.rater.group).getD fallbackGroup
  { group_id := group.group_id
    group_name := group.group_name
    ratee_id := row.ratee.nrp
    ratee_name := row.ratee.full_name
    rater_id := row.rater.nrp
    rater_name := row.rater.full_name
    rating_score := row.rating_score
    rating_comment := row.rating_comment
    created_at := row.created_at }

/-- Lexicographic comparison of character lists: the model of JS string
comparison. Non-strict variant (less-or-equal). -/
def charListLe : List Char → List Char → Bool
  | [], _ => true
  | _ :: _, [] => false
  | a :: as, b :: bs =>
    if a < b then true
    else if b < a then false
    else charListLe as bs

/-- Lexicographic comparison of character lists, strict variant. -/
def charListLt : List Char → List Char → Bool
  | _, [] => false
  | [], _ :: _ => true
  | a :: as, b :: bs =>
    if a < b then true
    else if b < a then false
    else charListLt as bs

/-- Lexicographic less-or-equal on strings. -/
def strLe (a b : String) : Bool :=
  charListLe a.data b.data

/-- Lexicographic strictly-less on strings. -/
def strLt (a b : String) : Bool :=
  charListLt a.data b.data

/-- The rows.sort comparator of fetchData, as the relation comparator
result less-or-equal zero: on distinct group_id the comparator returns
localeCompare of the group ids (negative exactly when strictly smaller),
otherwise localeCompare of the ratee ids. -/
def recapLe (a b : RecapRow) : Bool :=
  if a.group_id = b.group_id then strLe a.ratee_id b.ratee_id
  else strLt a.group_id b.group_id

/-- Stable insertion of a row into an already sorted list: the incoming
element is placed after every element less-or-equal to it, which is the
placement a stable sort gives the later-indexed element. -/
def sortInsert (x : RecapRow) : List RecapRow → List RecapRow
  | [] => [x]
  | b :: l => if recapLe b x then b :: sortInsert x l else x :: b :: l

/-- Stable sort of the recap rows, modelling Array.prototype.sort with
the fetchData comparator. -/
def sortRows (l : List RecapRow) : List RecapRow :=
  l.foldl (fun acc x => sortInsert x acc) []

/-- The full pure data-processing pass of fetchData: dedup to the latest
row per key, flatten with group fallback, sort. -/
def fetchDataProcess (rawData : List RawRatingRow) : List RecapRow :=
  sortRows (((latestMap rawData).map Prod.snd).map toRecapRow)

/-- Folding function describing what the dedup loop keeps among the rows
of one key: the first row, then replace whenever a strictly greater
created_at arrives. -/
def pickLatest (acc : Option RawRatingRow) (row : RawRatingRow) : Option RawRatingRow :=
  match acc with
  | none => some row
  | some existing =>
    if existing.created_at < row.created_at then some row else some existing

/-- The row among two with the strictly greater created_at (the second
one when the first is strictly older). -/
def laterOf (r1 r2 : RawRatingRow) : RawRatingRow :=
  if r1.created_at < r2.created_at then r2 else r1

/-- A joined row is consistent with the database join when the embedded
participant identifiers match the foreign keys of the rating row. -/
def joinConsistent (r : RawRatingRow) : Bool :=
  (r.rater.nrp == r.rater_id) && (r.ratee.nrp == r.ratee_id)

/-- Canonical re-embedding of a flattened display row as a raw joined
row, used to state idempotence of the reduce-and-sort pass (the output
type of the pass differs from its input type): the displayed group is
taken as the group of both participants and the display identifiers as
the join identifiers. -/
def recapRowToRaw (rr : RecapRow) : RawRatingRow :=
  { rating_id := 0
    rater_id := rr.rater_id
    ratee_id := rr.ratee_id
    rating_score := rr.rating_score
    rating_comment := rr.rating_comment
    created_at := rr.created_at
    rater := { nrp := rr.rater_id, full_name := rr.rater_name, group_id := rr.group_id,
               group := some { group_id := rr.group_id, group_name := rr.group_name } }
    ratee := { nrp := rr.ratee_id, full_name := rr.ratee_name, group_id := rr.group_id,
               group := some { group_id := rr.group_id, group_name := rr.group_name } } }

/-- Form values of PeerRatingForm, the input of the Zod RatingSchema. -/
structure RatingFormData where
  classId : String
  groupId : String
  raterId : String
  rateeId : String
  ratingScore : ℚ
  ratingComment : Option String
deriving DecidableEq

/-- The Zod RatingSchema of PeerRatingForm: the four ids through
z.string().min(1) and the score through z.number().min(1).max(5);
safeParse succeeds exactly when every constraint holds. -/
def ratingSchemaAccepts (f : RatingFormData) : Bool :=
  decide (1 ≤ f.classId.length) && decide (1 ≤ f.groupId.length) &&
  decide (1 ≤ f.raterId.length) && decide (1 ≤ f.rateeId.length) &&
  decide ((1 : ℚ) ≤ f.ratingScore) && decide (f.ratingScore ≤ (5 : ℚ))

/-- Participant option of the selector lists: nrp and full_name. -/
structure ParticipantOpt where
  nrp : String
  full_name : String
deriving DecidableEq

/-- Client state of PeerRatingForm relevant to the selector effects and
submission: the form values and the groups and participants option
lists. -/
structure FormState where
  form : RatingFormData
  groups : List ProjectGroup
  participants : List ParticipantOpt
deriving DecidableEq

/-- Synchronous body of the useEffect on selectedClass before the fetch
is started: setValue clears groupId, raterId and rateeId and
setParticipants clears the participant list. -/
def clearDependentOnClass (s : FormState) : FormState :=
  { s with
      form := { s.form with groupId := "", raterId := "", rateeId := "" }
      participants := [] }

/-- Synchronous guard at the top of fetchGroups: when the selected class
is empty, clear the groups and participants lists and do not fetch;
otherwise the groups list is left untouched until the fetch resolves. -/
def fetchGroupsGuard (s : FormState) : FormState :=
  if s.form.classId = "" then { s with groups := [], participants := [] } else s

/-- State transition performed synchronously when classId changes to c,
before any fetch result arrives: the watch value updates, the effect
clears the dependent fields, and fetchGroups runs up to its first
await. -/
def classChange (s : FormState) (c : String) : FormState :=
  fetchGroupsGuard (clearDependentOnClass { s with form := { s.form with classId := c } })

/-- Resolution of the groups fetch started by the class-change effect:
the fetched rows on success, an empty list on error. -/
def classFetchResolve (s : FormState) (result : Option (List ProjectGroup)) : FormState :=
  match result with
  | some data => { s with groups := data }
  | none => { s with groups := [] }

/-- Payload of the single supabase insert issued by onSubmit. -/
structure InsertPayload where
  rater_id : String
  ratee_id : String
  rating_score : ℚ
  rating_comment : Option String
deriving DecidableEq

/-- Default form values of the useForm call: score 3, every selection
empty, no comment. reset() restores exactly these. -/
def resetForm : RatingFormData :=
  { classId := "", groupId := "", raterId := "", rateeId := "", ratingScore := 3,
    ratingComment := none }

/-- The submission flow of PeerRatingForm: handleSubmit runs onSubmit
only when the RatingSchema accepts the form values; onSubmit issues one
insert of the four payload fields and resets the form on success, and
leaves the form state intact on write failure. The returned list holds
the issued inserts. -/
def submitFlow (s : FormState) (writeOk : Bool) : FormState × List InsertPayload :=
  if ratingSchemaAccepts s.form then
    let payload : InsertPayload :=
      { rater_id := s.form.raterId, ratee_id := s.form.rateeId,
        rating_score := s.form.ratingScore, rating_comment := s.form.ratingComment }
    if writeOk then ({ s with form := resetForm }, [payload]) else (s, [payload])
  else (s, [])

/-- The rateeOptions computation of PeerRatingForm: the participant list
minus the participant whose nrp equals the selected rater. -/
def rateeOptions (participants : List ParticipantOpt) (selectedRater : String) : List ParticipantOpt :=
  participants.filter fun p => p.nrp != selectedRater

/-- The rational five halves, a non-integer score inside the interval
accepted by the RatingSchema. -/
def halfFive : ℚ :=
  ⟨5, 2, by decide, by decide⟩

/-- Sample joined participant Alice of group G1. -/
def aliceJoin : ParticipantJoin :=
  { nrp := "S1", full_name := "Alice", group_id := "G1",
    group := some { group_id := "G1", group_name := "Team A" } }

/-- Sample joined participant Bob of group G1. -/
def bobJoin : ParticipantJoin :=
  { nrp := "S2", full_name := "Bob", group_id := "G1",
    group := some { group_id := "G1", group_name := "Team A" } }

/-- First of two sample rows with identical key and identical
created_at. -/
def rowTieFirst : RawRatingRow :=
  { rating_id := 1, rater_id := "S1", ratee_id := "S2", rating_score := 4,
    rating_comment := some "first", created_at := 100, rater := aliceJoin, ratee := bobJoin }

/-- Second of two sample rows with identical key and identical
created_at, differing from the first in score and comment. -/
def rowTieSecond : RawRatingRow :=
  { rating_id := 2, rater_id := "S1", ratee_id := "S2", rating_score := 2,
    rating_comment := some "second", created_at := 100, rater := aliceJoin, ratee := bobJoin }

/-- Sample row of the pair (S1, S2) with the older timestamp. -/
def rowOld : RawRatingRow :=
  { rating_id := 1, rater_id := "S1", ratee_id := "S2", rating_score := 3,
    rating_comment := none, created_at := 100, rater := aliceJoin, ratee := bobJoin }

/-- Sample row of the pair (S1, S2) with the newer timestamp. -/
def rowNew : RawRatingRow :=
  { rating_id := 2, rater_id := "S1", ratee_id := "S2", rating_score := 5,
    rating_comment := none, created_at := 200, rater := aliceJoin, ratee := bobJoin }

/-- Sample row whose pair (a-b, c) collides on the composite key with
the pair (a, b-c): both keys read a-b-c. -/
def rowKeyA : RawRatingRow :=
  { rating_id := 1, rater_id := "a-b", ratee_id := "c", rating_score := 3,
    rating_comment := none, created_at := 100,
    rater := { nrp := "a-b", full_name := "P1", group_id := "", group := none },
    ratee := { nrp := "c", full_name := "P2", group_id := "", group := none } }

/-- Sample row of the distinct pair (a, b-c) sharing the composite key
a-b-c with rowKeyA. -/
def rowKeyB : RawRatingRow :=
  { rating_id := 2, rater_id := "a", ratee_id := "b-c", rating_score := 4,
    rating_comment := none, created_at := 200,
    rater := { nrp := "a", full_name := "P3", group_id := "", group := none },
    ratee := { nrp := "b-c", full_name := "P4", group_id := "", group := none } }

/-- Sample row whose embedded participant identifiers disagree with the
foreign keys of the row: key x-y but re-embedded key a-b-c. -/
def rowSkewA : RawRatingRow :=
  { rating_id := 1, rater_id := "x", ratee_id := "y", rating_score := 3,
    rating_comment := none, created_at := 100,
    rater := { nrp := "a", full_name := "RA", group_id := "", group := none },
    ratee := { nrp := "b-c", full_name := "EA", group_id := "", group := none } }

/-- Sample row whose embedded participant identifiers disagree with the
foreign keys of the row: key u-v but re-embedded key a-b-c. -/
def rowSkewB : RawRatingRow :=
  { rating_id := 2, rater_id := "u", ratee_id := "v", rating_score := 4,
    rating_comment := none, created_at := 100,
    rater := { nrp := "a-b", full_name := "RB", group_id := "", group := none },
    ratee := { nrp := "c", full_name := "EB", group_id := "", group := none } }

/-- Sample form values that the RatingSchema accepts although the score
is not an integer. -/
def invalidScoreForm : RatingFormData :=
  { classId := "C1", groupId := "G1", raterId := "S1", rateeId := "S2",
    ratingScore := halfFive, ratingComment := none }

/-- Sample form values with an empty class selection. -/
def emptyClassForm : RatingFormData :=
  { classId := "", groupId := "G1", raterId := "S1", rateeId := "S2",
    ratingScore := 3, ratingComment := none }

/-- Sample filled selector state with a valid form, one group option and
two participant options. -/
def demoState : FormState :=
  { form := { classId := "C1", groupId := "G1", raterId := "S1", rateeId := "S2",
              ratingScore := 3, ratingComment := none }
    groups := [{ group_id := "G1", group_name := "Team A" }]
    participants := [{ nrp := "S1", full_name := "Alice" }, { nrp := "S2", full_name := "Bob" }] }

theorem mapGet_mapSet_self (m : List (String × RawRatingRow)) (k : String) (v : RawRatingRow) :
    mapGet (mapSet m k v) k = some v := by
  induction m with
  | nil => simp [mapSet, mapGet]
  | cons p m ih =>
    obtain ⟨k1, v1⟩ := p
    by_cases h : k1 = k <;> simp [mapSet, mapGet, h, ih]

theorem mapGet_mapSet_ne (m : List (String × RawRatingRow)) (k1 k : String) (v : RawRatingRow)
    (h : k1 ≠ k) : mapGet (mapSet m k1 v) k = mapGet m k := by
  induction m with
  | nil => simp [mapSet, mapGet, h]
  | cons p m ih =>
    obtain ⟨k2, v2⟩ := p
    by_cases h2 : k2 = k1
    · subst h2
      simp [mapSet, mapGet, h]
    · simp only [mapSet, if_neg h2]
      by_cases h3 : k2 = k <;> simp [mapGet, h3, ih]

theorem mapSet_of_get_none (m : List (String × RawRatingRow)) (k : String) (v : RawRatingRow)
    (h : mapGet m k = none) : mapSet m k v = m ++ [(k, v)] := by
  induction m with
  | nil => simp [mapSet]
  | cons p m ih =>
    obtain ⟨k1, v1⟩ := p
    by_cases h1 : k1 = k
    · simp [mapGet, h1] at h
    · simp only [mapGet, if_neg h1] at h
      simp [mapSet, h1, ih h]

theorem mapGet_eq_none_iff (m : List (String × RawRatingRow)) (k : String) :
    mapGet m k = none ↔ k ∉ m.map Prod.fst := by
  induction m with
  | nil => simp [mapGet]
  | cons p m ih =>
    obtain ⟨k1, v1⟩ := p
    by_cases h1 : k1 = k
    · subst h1
      simp [mapGet]
    · simp only [mapGet, if_neg h1, List.map_cons, List.mem_cons]
      rw [ih]
      have hne : ¬ k = k1 := fun e => h1 e.symm
      tauto

theorem mem_mapSet (m : List (String × RawRatingRow)) (k : String) (v : RawRatingRow)
    (p : String × RawRatingRow) (hp : p ∈ mapSet m k v) : p ∈ m ∨ p = (k, v) := by
  induction m with
  | nil => simp [mapSet] at hp; simp [hp]
  | cons q m ih =>
    obtain ⟨k1, v1⟩ := q
    by_cases h1 : k1 = k
    · simp only [mapSet, if_pos h1] at hp
      rcases List.mem_cons.mp hp with h | h
      · exact Or.inr h
      · exact Or.inl (List.mem_cons_of_mem _ h)
    · simp only [mapSet, if_neg h1] at hp
      rcases List.mem_cons.mp hp with h | h
      · exact Or.inl (h ▸ List.mem_cons_self _ _)
      · rcases ih h with h2 | h2
        · exact Or.inl (List.mem_cons_of_mem _ h2)
        · exact Or.inr h2

theorem keys_mapSet_nodup (m : List (String × RawRatingRow)) (k : String) (v : RawRatingRow)
    (h : (m.map Prod.fst).Nodup) : ((mapSet m k v).map Prod.fst).Nodup := by
  induction m with
  | nil => simp [mapSet]
  | cons p m ih =>
    obtain ⟨k1, v1⟩ := p
    simp only [List.map_cons, List.nodup_cons] at h
    by_cases h1 : k1 = k
    · subst h1
      simpa [mapSet, List.nodup_cons] using h
    · simp only [mapSet, if_neg h1, List.map_cons, List.nodup_cons]
      refine ⟨fun hmem => ?_, ih h.2⟩
      rcases List.mem_map.mp hmem with ⟨q, hq, hfst⟩
      rcases mem_mapSet m k v q hq with h2 | h2
      · exact h.1 (hfst ▸ List.mem_map_of_mem Prod.fst h2)
      · exact h1 (by rw [← hfst, h2])

theorem mapGet_mem (m : List (String × RawRatingRow)) (k : String) (v : RawRatingRow)
    (h : mapGet m k = some v) : (k, v) ∈ m := by
  induction m with
  | nil => simp [mapGet] at h
  | cons p m ih =>
    obtain ⟨k1, v1⟩ := p
    by_cases h1 : k1 = k
    · subst h1
      simp [mapGet] at h
      simp [h]
    · simp only [mapGet, if_neg h1] at h
      exact List.mem_cons_of_mem _ (ih h)

theorem mapGet_of_mem_nodup (m : List (String × RawRatingRow)) (k : String) (v : RawRatingRow)
    (hnd : (m.map Prod.fst).Nodup) (h : (k, v) ∈ m) : mapGet m k = some v := by
  induction m with
  | nil => simp at h
  | cons p m ih =>
    obtain ⟨k1, v1⟩ := p
    simp only [List.map_cons, List.nodup_cons] at hnd
    rcases List.mem_cons.mp h with h2 | h2
    · injection h2 with e1 e2
      subst e1
      subst e2
      simp [mapGet]
    · have hne : k1 ≠ k := by
        rintro rfl
        exact hnd.1 (List.mem_map_of_mem Prod.fst h2)
      simp [mapGet, hne, ih hnd.2 h2]

theorem dedupStep_entry (m : List (String × RawRatingRow)) (r : RawRatingRow)
    (p : String × RawRatingRow) (hp : p ∈ dedupStep m r) : p ∈ m ∨ p = (ratingKey r, r) := by
  unfold dedupStep at hp
  rcases hget : mapGet m (ratingKey r) with _ | e <;> rw [hget] at hp <;> dsimp only at hp
  · exact mem_mapSet m (ratingKey r) r p hp
  · by_cases hlt : e.created_at < r.created_at
    · rw [if_pos hlt] at hp
      exact mem_mapSet m (ratingKey r) r p hp
    · rw [if_neg hlt] at hp
      exact Or.inl hp

theorem foldl_dedup_entry (l : List RawRatingRow) (m : List (String × RawRatingRow))
    (p : String × RawRatingRow) (hp : p ∈ List.foldl dedupStep m l) :
    p ∈ m ∨ (ratingKey p.2 = p.1 ∧ p.2 ∈ l) := by
  induction l generalizing m with
  | nil => exact Or.inl hp
  | cons r l ih =>
    rcases ih (dedupStep m r) hp with h | h
    · rcases dedupStep_entry m r p h with h2 | h2
      · exact Or.inl h2
      · subst h2
        exact Or.inr ⟨rfl, List.mem_cons_self _ _⟩
    · exact Or.inr ⟨h.1, List.mem_cons_of_mem _ h.2⟩

theorem latestMap_entry (l : List RawRatingRow) (p : String × RawRatingRow)
    (hp : p ∈ latestMap l) : ratingKey p.2 = p.1 ∧ p.2 ∈ l := by
  rcases foldl_dedup_entry l [] p hp with h | h
  · simp at h
  · exact h

theorem dedupStep_keys_nodup (m : List (String × RawRatingRow)) (r : RawRatingRow)
    (h : (m.map Prod.fst).Nodup) : ((dedupStep m r).map Prod.fst).Nodup := by
  unfold dedupStep
  rcases mapGet m (ratingKey r) with _ | e <;> dsimp only
  · exact keys_mapSet_nodup m (ratingKey r) r h
  · by_cases hlt : e.created_at < r.created_at
    · rw [if_pos hlt]
      exact keys_mapSet_nodup m (ratingKey r) r h
    · rw [if_neg hlt]
      exact h

theorem latestMap_keys_nodup (l : List RawRatingRow) :
    ((latestMap l).map Prod.fst).Nodup := by
  have main : ∀ (l : List RawRatingRow) (m : List (String × RawRatingRow)),
      (m.map Prod.fst).Nodup → ((List.foldl dedupStep m l).map Prod.fst).Nodup := by
    intro l
    induction l with
    | nil => exact fun m h => h
    | cons r l ih => exact fun m h => ih (dedupStep m r) (dedupStep_keys_nodup m r h)
  exact main l [] (by simp)

theorem dedupStep_get_key (m : List (String × RawRatingRow)) (r : RawRatingRow) :
    mapGet (dedupStep m r) (ratingKey r) = pickLatest (mapGet m (ratingKey r)) r := by
  unfold dedupStep pickLatest
  rcases hget : mapGet m (ratingKey r) with _ | e <;> dsimp only
  · exact mapGet_mapSet_self m (ratingKey r) r
  · by_cases hlt : e.created_at < r.created_at
    · rw [if_pos hlt, if_pos hlt]
      exact mapGet_mapSet_self m (ratingKey r) r
    · rw [if_neg hlt, if_neg hlt]
      exact hget

theorem dedupStep_get_other (m : List (String × RawRatingRow)) (r : RawRatingRow) (k : String)
    (hk : ratingKey r ≠ k) : mapGet (dedupStep m r) k = mapGet m k := by
  unfold dedupStep
  rcases mapGet m (ratingKey r) with _ | e <;> dsimp only
  · exact mapGet_mapSet_ne m (ratingKey r) k r hk
  · by_cases hlt : e.created_at < r.created_at
    · rw [if_pos hlt]
      exact mapGet_mapSet_ne m (ratingKey r) k r hk
    · rw [if_neg hlt]

theorem foldl_dedup_get (l : List RawRatingRow) (m : List (String × RawRatingRow)) (k : String) :
    mapGet (List.foldl dedupStep m l) k =
      List.foldl pickLatest (mapGet m k) (l.filter fun r => ratingKey r == k) := by
  induction l generalizing m with
  | nil => rfl
  | cons r l ih =>
    by_cases hk : ratingKey r = k
    · have hfil : (r :: l).filter (fun r => ratingKey r == k) =
          r :: l.filter (fun r => ratingKey r == k) := by
        simp [List.filter_cons, hk]
      rw [hfil, List.foldl_cons, List.foldl_cons, ih (dedupStep m r), ← hk,
        dedupStep_get_key, hk]
    · have hfil : (r :: l).filter (fun r => ratingKey r == k) =
          l.filter (fun r => ratingKey r == k) := by
        simp [List.filter_cons, hk]
      rw [hfil, List.foldl_cons, ih (dedupStep m r), dedupStep_get_other m r k hk]

theorem latestMap_get (l : List RawRatingRow) (k : String) :
    mapGet (latestMap l) k =
      List.foldl pickLatest none (l.filter fun r => ratingKey r == k) :=
  foldl_dedup_get l [] k

theorem latestMap_get_pair (l : List RawRatingRow) (k : String) (r1 r2 : RawRatingRow)
    (hfil : l.filter (fun r => ratingKey r == k) = [r1, r2]) :
    mapGet (latestMap l) k =
      some (if r1.created_at < r2.created_at then r2 else r1) := by
  rw [latestMap_get, hfil]
  by_cases h : r1.created_at < r2.created_at <;>
    simp [pickLatest, h]

theorem latestMap_value_at_key (l : List RawRatingRow) (k : String) (w v : RawRatingRow)
    (hget : mapGet (latestMap l) k = some w)
    (hv : v ∈ (latestMap l).map Prod.snd) (hkey : ratingKey v = k) : v = w := by
  rcases List.mem_map.mp hv with ⟨p, hp, hsnd⟩
  obtain ⟨pk, pv⟩ := p
  simp only at hsnd
  have hent := latestMap_entry l (pk, pv) hp
  have hentk : ratingKey pv = pk := hent.1
  have hpk : pk = k := by
    rw [← hentk, hsnd, hkey]
  have hg2 := mapGet_of_mem_nodup (latestMap l) k pv (latestMap_keys_nodup l) (hpk ▸ hp)
  rw [hg2] at hget
  rw [← hsnd]
  injection hget

theorem charListLe_total (a b : List Char) :
    charListLe a b = true ∨ charListLe b a = true := by
  induction a generalizing b with
  | nil => exact Or.inl rfl
  | cons x xs ih =>
    cases b with
    | nil => exact Or.inr rfl
    | cons y ys =>
      by_cases hxy : x < y
      · exact Or.inl (by simp [charListLe, hxy])
      · by_cases hyx : y < x
        · exact Or.inr (by simp [charListLe, hyx])
        · rcases ih ys with h | h
          · exact Or.inl (by simp [charListLe, hxy, hyx, h])
          · exact Or.inr (by simp [charListLe, hxy, hyx, h])

theorem charListLe_trans (a b c : List Char) (h1 : charListLe a b = true)
    (h2 : charListLe b c = true) : charListLe a c = true := by
  induction a generalizing b c with
  | nil => rfl
  | cons x xs ih =>
    cases b with
    | nil => simp [charListLe] at h1
    | cons y ys =>
      cases c with
      | nil => simp [charListLe] at h2
      | cons z zs =>
        by_cases hxy : x < y
        · by_cases hyz : y < z
          · simp [charListLe, lt_trans hxy hyz]
          · by_cases hzy : z < y
            · simp [charListLe, hyz, hzy] at h2
            · have hyzeq : y = z := le_antisymm (not_lt.mp hzy) (not_lt.mp hyz)
              subst hyzeq
              simp [charListLe, hxy]
        · by_cases hyx : y < x
          · simp [charListLe, hxy, hyx] at h1
          · have hxyeq : x = y := le_antisymm (not_lt.mp hyx) (not_lt.mp hxy)
            subst hxyeq
            simp only [charListLe, lt_irrefl, if_false] at h1
            by_cases hxz : x < z
            · simp [charListLe, hxz]
            · by_cases hzx : z < x
              · simp [charListLe, hxz, hzx] at h2
              · have hxzeq : x = z := le_antisymm (not_lt.mp hzx) (not_lt.mp hxz)
                subst hxzeq
                simp only [charListLe, lt_irrefl, if_false] at h2 ⊢
                exact ih ys zs h1 h2

theorem charListLe_antisymm (a b : List Char) (h1 : charListLe a b = true)
    (h2 : charListLe b a = true) : a = b := by
  induction a generalizing b with
  | nil =>
    cases b with
    | nil => rfl
    | cons y ys => simp [charListLe] at h2
  | cons x xs ih =>
    cases b with
    | nil => simp [charListLe] at h1
    | cons y ys =>
      by_cases hxy : x < y
      · have hyx : ¬ y < x := lt_asymm hxy
        simp [charListLe, hxy, hyx] at h2
      · by_cases hyx : y < x
        · simp [charListLe, hxy, hyx] at h1
        · have hxyeq : x = y := le_antisymm (not_lt.mp hyx) (not_lt.mp hxy)
          subst hxyeq
          simp only [charListLe, lt_irrefl, if_false] at h1 h2
          rw [ih ys h1 h2]

theorem charListLt_le (a b : List Char) (h : charListLt a b = true) :
    charListLe a b = true := by
  induction a generalizing b with
  | nil => rfl
  | cons x xs ih =>
    cases b with
    | nil => simp [charListLt] at h
    | cons y ys =>
      by_cases hxy : x < y
      · simp [charListLe, hxy]
      · by_cases hyx : y < x
        · simp [charListLt, hxy, hyx] at h
        · simp only [charListLt, if_neg hxy, if_neg hyx] at h
          simp only [charListLe, if_neg hxy, if_neg hyx]
          exact ih ys h

theorem charListLt_irrefl (a : List Char) : charListLt a a = false := by
  induction a with
  | nil => rfl
  | cons x xs ih => simp [charListLt, lt_irrefl, ih]

theorem charListLt_ne (a b : List Char) (h : charListLt a b = true) : a ≠ b := by
  intro he
  subst he
  rw [charListLt_irrefl a] at h
  exact Bool.noConfusion h

theorem charListLt_of_le_ne (a b : List Char) (h1 : charListLe a b = true) (h2 : a ≠ b) :
    charListLt a b = true := by
  induction a generalizing b with
  | nil =>
    cases b with
    | nil => exact absurd rfl h2
    | cons y ys => rfl
  | cons x xs ih =>
    cases b with
    | nil => simp [charListLe] at h1
    | cons y ys =>
      by_cases hxy : x < y
      · simp [charListLt, hxy]
      · by_cases hyx : y < x
        · simp [charListLe, hxy, hyx] at h1
        · have hxyeq : x = y := le_antisymm (not_lt.mp hyx) (not_lt.mp hxy)
          subst hxyeq
          simp only [charListLe, lt_irrefl, if_false] at h1
          simp only [charListLt, lt_irrefl, if_false]
          refine ih ys h1 fun he => h2 ?_
          rw [he]

theorem strLe_total (a b : String) : strLe a b = true ∨ strLe b a = true :=
  charListLe_total a.data b.data

theorem strLe_trans (a b c : String) (h1 : strLe a b = true) (h2 : strLe b c = true) :
    strLe a c = true :=
  charListLe_trans a.data b.data c.data h1 h2

theorem strLe_antisymm (a b : String) (h1 : strLe a b = true) (h2 : strLe b a = true) :
    a = b := by
  have := charListLe_antisymm a.data b.data h1 h2
  exact String.ext this

theorem strLt_le (a b : String) (h : strLt a b = true) : strLe a b = true :=
  charListLt_le a.data b.data h

theorem strLt_ne (a b : String) (h : strLt a b = true) : a ≠ b := by
  intro he
  exact charListLt_ne a.data b.data h (congrArg String.data he)

theorem strLt_of_le_ne (a b : String) (h1 : strLe a b = true) (h2 : a ≠ b) :
    strLt a b = true :=
  charListLt_of_le_ne a.data b.data h1 fun he => h2 (String.ext he)

theorem strLt_trans (a b c : String) (h1 : strLt a b = true) (h2 : strLt b c = true) :
    strLt a c = true := by
  have hle : strLe a c = true := strLe_trans a b c (strLt_le a b h1) (strLt_le b c h2)
  refine strLt_of_le_ne a c hle fun he => ?_
  rw [← he] at h2
  exact strLt_ne a b h1 (strLe_antisymm a b (strLt_le a b h1) (strLt_le b a h2))

theorem recapLe_total (a b : RecapRow) : recapLe a b = true ∨ recapLe b a = true := by
  unfold recapLe
  by_cases hg : a.group_id = b.group_id
  · rw [if_pos hg, if_pos hg.symm]
    exact strLe_total a.ratee_id b.ratee_id
  · rw [if_neg hg, if_neg (fun h => hg h.symm)]
    rcases strLe_total a.group_id b.group_id with h | h
    · exact Or.inl (strLt_of_le_ne _ _ h hg)
    · exact Or.inr (strLt_of_le_ne _ _ h fun he => hg he.symm)

theorem recapLe_trans (a b c : RecapRow) (h1 : recapLe a b = true) (h2 : recapLe b c = true) :
    recapLe a c = true := by
  unfold recapLe at h1 h2 ⊢
  by_cases hab : a.group_id = b.group_id
  · by_cases hbc : b.group_id = c.group_id
    · rw [if_pos hab] at h1
      rw [if_pos hbc] at h2
      rw [if_pos (hab.trans hbc)]
      exact strLe_trans _ _ _ h1 h2
    · rw [if_neg hbc] at h2
      rw [if_neg (fun h => hbc (hab ▸ h)), hab]
      exact h2
  · by_cases hbc : b.group_id = c.group_id
    · rw [if_neg hab] at h1
      rw [if_neg (fun h => hab (hbc ▸ h)), ← hbc]
      exact h1
    · rw [if_neg hab] at h1
      rw [if_neg hbc] at h2
      have hlt := strLt_trans _ _ _ h1 h2
      rw [if_neg (strLt_ne _ _ hlt)]
      exact hlt

theorem sortInsert_perm (x : RecapRow) (l : List RecapRow) :
    (sortInsert x l).Perm (x :: l) := by
  induction l with
  | nil => exact List.Perm.refl _
  | cons b l ih =>
    by_cases h : recapLe b x = true
    · rw [sortInsert, if_pos h]
      exact (ih.cons b).trans (List.Perm.swap x b l)
    · rw [sortInsert, if_neg h]

theorem sortRows_perm (l : List RecapRow) : (sortRows l).Perm l := by
  have main : ∀ (l acc : List RecapRow),
      (List.foldl (fun a x => sortInsert x a) acc l).Perm (acc ++ l) := by
    intro l
    induction l with
    | nil => intro acc; simp
    | cons x l ih =>
      intro acc
      refine (ih (sortInsert x acc)).trans ?_
      refine (((sortInsert_perm x acc).append_right l).trans ?_)
      exact List.perm_middle.symm
  simpa using main l []

theorem mem_sortRows (a : RecapRow) (l : List RecapRow) : a ∈ sortRows l ↔ a ∈ l :=
  (sortRows_perm l).mem_iff

theorem sortInsert_pairwise (x : RecapRow) (l : List RecapRow)
    (h : List.Pairwise (fun a b => recapLe a b = true) l) :
    List.Pairwise (fun a b => recapLe a b = true) (sortInsert x l) := by
  induction l with
  | nil => simp [sortInsert]
  | cons b l ih =>
    rw [List.pairwise_cons] at h
    by_cases hbx : recapLe b x = true
    · rw [sortInsert, if_pos hbx, List.pairwise_cons]
      refine ⟨fun y hy => ?_, ih h.2⟩
      rcases List.mem_cons.mp ((sortInsert_perm x l).mem_iff.mp hy) with hy2 | hy2
      · rw [hy2]
        exact hbx
      · exact h.1 y hy2
    · rw [sortInsert, if_neg hbx, List.pairwise_cons]
      have hxb : recapLe x b = true := by
        rcases recapLe_total b x with h2 | h2
        · exact absurd h2 hbx
        · exact h2
      refine ⟨fun y hy => ?_, List.pairwise_cons.mpr h⟩
      rcases List.mem_cons.mp hy with hy2 | hy2
      · rw [hy2]
        exact hxb
      · exact recapLe_trans x b y hxb (h.1 y hy2)

theorem sortRows_sorted (l : List RecapRow) :
    List.Pairwise (fun a b => recapLe a b = true) (sortRows l) := by
  have main : ∀ (l acc : List RecapRow),
      List.Pairwise (fun a b => recapLe a b = true) acc →
      List.Pairwise (fun a b => recapLe a b = true)
        (List.foldl (fun a x => sortInsert x a) acc l) := by
    intro l
    induction l with
    | nil => exact fun acc h => h
    | cons x l ih => exact fun acc h => ih (sortInsert x acc) (sortInsert_pairwise x acc h)
  exact main l [] List.Pairwise.nil

theorem sortInsert_of_all_le (x : RecapRow) (l : List RecapRow)
    (h : ∀ b ∈ l, recapLe b x = true) : sortInsert x l = l ++ [x] := by
  induction l with
  | nil => rfl
  | cons b l ih =>
    rw [sortInsert, if_pos (h b (List.mem_cons_self b l)), List.cons_append,
      ih fun c hc => h c (List.mem_cons_of_mem b hc)]

theorem sortRows_of_sorted (l : List RecapRow)
    (h : List.Pairwise (fun a b => recapLe a b = true) l) : sortRows l = l := by
  have main : ∀ (l acc : List RecapRow),
      List.Pairwise (fun a b => recapLe a b = true) (acc ++ l) →
      List.foldl (fun a x => sortInsert x a) acc l = acc ++ l := by
    intro l
    induction l with
    | nil => intro acc _; simp
    | cons x l ih =>
      intro acc hacc
      have hall : ∀ b ∈ acc, recapLe b x = true := by
        intro b hb
        exact (List.pairwise_append.mp hacc).2.2 b hb x (List.mem_cons_self x l)
      rw [List.foldl_cons, sortInsert_of_all_le x acc hall, ih (acc ++ [x]) (by simpa using hacc)]
      simp
  simpa using main l [] (by simpa using h)

theorem toRecapRow_recapRowToRaw (rr : RecapRow) : toRecapRow (recapRowToRaw rr) = rr :=
  rfl

theorem value_mem_of_get (l : List RawRatingRow) (k : String) (v : RawRatingRow)
    (h : mapGet (latestMap l) k = some v) : v ∈ (latestMap l).map Prod.snd :=
  List.mem_map_of_mem Prod.snd (mapGet_mem (latestMap l) k v h)

theorem toRecap_mem_output (l : List RawRatingRow) (v : RawRatingRow)
    (hv : v ∈ (latestMap l).map Prod.snd) : toRecapRow v ∈ fetchDataProcess l := by
  unfold fetchDataProcess
  rw [mem_sortRows]
  exact List.mem_map_of_mem toRecapRow hv

theorem foldl_dedup_fresh (l : List RawRatingRow) :
    ∀ m : List (String × RawRatingRow),
    (∀ r2 ∈ l, mapGet m (ratingKey r2) = none) →
    (l.map ratingKey).Nodup →
    List.foldl dedupStep m l = m ++ l.map (fun r2 => (ratingKey r2, r2)) := by
  induction l with
  | nil =>
    intro m _ _
    simp
  | cons r l ih =>
    intro m hfresh hnd
    simp only [List.map_cons, List.nodup_cons] at hnd
    have hget : mapGet m (ratingKey r) = none := hfresh r (List.mem_cons_self r l)
    have hstep : dedupStep m r = m ++ [(ratingKey r, r)] := by
      unfold dedupStep
      rw [hget]
      exact mapSet_of_get_none m (ratingKey r) r hget
    have hfresh2 : ∀ r2 ∈ l, mapGet (m ++ [(ratingKey r, r)]) (ratingKey r2) = none := by
      intro r2 hr2
      have h1 : ratingKey r2 ∉ m.map Prod.fst :=
        (mapGet_eq_none_iff m _).mp (hfresh r2 (List.mem_cons_of_mem r hr2))
      have h2 : ratingKey r2 ≠ ratingKey r :=
        fun he => hnd.1 (he ▸ List.mem_map_of_mem ratingKey hr2)
      rw [mapGet_eq_none_iff]
      simp [h1, h2]
    rw [List.foldl_cons, hstep, ih (m ++ [(ratingKey r, r)]) hfresh2 hnd.2]
    simp

theorem latestMap_nodup_keys (l : List RawRatingRow) (h : (l.map ratingKey).Nodup) :
    latestMap l = l.map fun r => (ratingKey r, r) := by
  have := foldl_dedup_fresh l [] (fun r2 _ => rfl) h
  simpa using this

theorem latestMap_values_consistent (l : List RawRatingRow) (h : l.all joinConsistent = true) :
    ∀ v ∈ (latestMap l).map Prod.snd, v.rater.nrp = v.rater_id ∧ v.ratee.nrp = v.ratee_id := by
  intro v hv
  rcases List.mem_map.mp hv with ⟨p, hp, hsnd⟩
  have hvl : v ∈ l := hsnd ▸ (latestMap_entry l p hp).2
  have hj := List.all_eq_true.mp h v hvl
  unfold joinConsistent at hj
  rw [Bool.and_eq_true, beq_iff_eq, beq_iff_eq] at hj
  exact hj

theorem latestMap_values_keys_nodup (l : List RawRatingRow) :
    (((latestMap l).map Prod.snd).map ratingKey).Nodup := by
  have hkeys : ((latestMap l).map Prod.snd).map ratingKey = (latestMap l).map Prod.fst := by
    rw [List.map_map]
    exact List.map_congr_left fun p hp => (latestMap_entry l p hp).1
  rw [hkeys]
  exact latestMap_keys_nodup l

/-- Claim C1 counterexample: two rows with identical (rater_id, ratee_id,
created_at) in the input order; the reducer retains the row appearing
EARLIER in iteration order (the strict greater-than comparison never
replaces on a tie), and the two rows produce different display rows, so
the claim that the later row is retained is false on this input. -/
theorem recap_tie_keeps_first_not_last :
    mapGet (latestMap [rowTieFirst, rowTieSecond]) "S1-S2" = some rowTieFirst ∧
    rowTieFirst ≠ rowTieSecond ∧
    ratingKey rowTieFirst = ratingKey rowTieSecond ∧
    rowTieFirst.created_at = rowTieSecond.created_at ∧
    fetchDataProcess [rowTieFirst, rowTieSecond] = [toRecapRow rowTieFirst] ∧
    toRecapRow rowTieFirst ≠ toRecapRow rowTieSecond := by
  decide

/-- Claim C1 (amended): when the rows of a key are exactly two rows with
the same (rater_id, ratee_id) pair and identical created_at, the recap
reducer retains the row appearing EARLIER in input iteration order
(first-write-wins on timestamp ties): it is the value stored for the
key, its display row reaches the output, and no other retained row has
that key. -/
theorem recap_tie_first_write_wins (l : List RawRatingRow) (k : String)
    (r1 r2 : RawRatingRow)
    (hfil : l.filter (fun r => ratingKey r == k) = [r1, r2])
    (_hpair1 : r1.rater_id = r2.rater_id) (_hpair2 : r1.ratee_id = r2.ratee_id)
    (htie : r1.created_at = r2.created_at) :
    mapGet (latestMap l) k = some r1 ∧
    toRecapRow r1 ∈ fetchDataProcess l ∧
    ∀ v ∈ (latestMap l).map Prod.snd, ratingKey v = k → v = r1 := by
  have hget : mapGet (latestMap l) k = some r1 := by
    rw [latestMap_get_pair l k r1 r2 hfil, htie, if_neg (lt_irrefl _)]
  exact ⟨hget, toRecap_mem_output l r1 (value_mem_of_get l k r1 hget),
    fun v hv hk => latestMap_value_at_key l k r1 v hget hv hk⟩

/-- Claim C1 (amended) witness: the two concrete tied rows instantiate
the amended theorem. -/
theorem recap_tie_first_write_wins_witness :
    mapGet (latestMap [rowTieFirst, rowTieSecond]) "S1-S2" = some rowTieFirst :=
  (recap_tie_first_write_wins [rowTieFirst, rowTieSecond] "S1-S2" rowTieFirst rowTieSecond
    (by decide) (by decide) (by decide) (by decide)).1

/-- Claim C2: when the rows of a key are exactly two rows with the same
(rater_id, ratee_id) pair and distinct created_at, the recap reducer
keeps for that pair only the row with the strictly greater created_at:
it is the value stored for the key, its display row reaches the output,
and no other retained row has that key. -/
theorem recap_keeps_greater_timestamp (l : List RawRatingRow) (k : String)
    (r1 r2 : RawRatingRow)
    (hfil : l.filter (fun r => ratingKey r == k) = [r1, r2])
    (_hpair1 : r1.rater_id = r2.rater_id) (_hpair2 : r1.ratee_id = r2.ratee_id)
    (_hne : r1.created_at ≠ r2.created_at) :
    mapGet (latestMap l) k = some (laterOf r1 r2) ∧
    toRecapRow (laterOf r1 r2) ∈ fetchDataProcess l ∧
    ∀ v ∈ (latestMap l).map Prod.snd, ratingKey v = k → v = laterOf r1 r2 := by
  have hget : mapGet (latestMap l) k = some (laterOf r1 r2) := by
    rw [latestMap_get_pair l k r1 r2 hfil]
    rfl
  exact ⟨hget, toRecap_mem_output l (laterOf r1 r2) (value_mem_of_get l k (laterOf r1 r2) hget),
    fun v hv hk => latestMap_value_at_key l k (laterOf r1 r2) v hget hv hk⟩

/-- Claim C2 witness: the concrete pair with timestamps 100 and 200
instantiates the theorem; the retained row is the newer one. -/
theorem recap_keeps_greater_timestamp_witness :
    mapGet (latestMap [rowOld, rowNew]) "S1-S2" = some (laterOf rowOld rowNew) ∧
    laterOf rowOld rowNew = rowNew :=
  ⟨(recap_keeps_greater_timestamp [rowOld, rowNew] "S1-S2" rowOld rowNew
      (by decide) rfl rfl (by decide)).1, by decide⟩

/-- Claim C5: for every retained row the displayed group is the ratee
group when present, else the rater group when present, else the sentinel
N/A group. -/
theorem toRecapRow_group_fallback (row : RawRatingRow) :
    ((toRecapRow row).group_id, (toRecapRow row).group_name) =
      match row.ratee.group with
      | some g => (g.group_id, g.group_name)
      | none =>
        match row.rater.group with
        | some g => (g.group_id, g.group_name)
        | none => ("N/A", "N/A") := by
  obtain ⟨id1, rid, eid, sc, cm, ca, ⟨rn, rfn, rgid, rg⟩, ⟨en, efn, egid, eg⟩⟩ := row
  cases eg <;> cases rg <;> rfl

/-- Claim C6: the recap output is sorted ascending: every earlier output
row is either in a lexicographically strictly smaller group, or in the
same group with a lexicographically less-or-equal ratee identifier. -/
theorem fetchDataProcess_sorted (l : List RawRatingRow) :
    List.Pairwise (fun a b =>
      (a.group_id = b.group_id ∧ strLe a.ratee_id b.ratee_id = true) ∨
      (a.group_id ≠ b.group_id ∧ strLt a.group_id b.group_id = true))
      (fetchDataProcess l) := by
  have h := sortRows_sorted (((latestMap l).map Prod.snd).map toRecapRow)
  refine List.Pairwise.imp ?_ h
  intro a b hab
  unfold recapLe at hab
  by_cases hg : a.group_id = b.group_id
  · rw [if_pos hg] at hab
    exact Or.inl ⟨hg, hab⟩
  · rw [if_neg hg] at hab
    exact Or.inr ⟨hg, hab⟩

/-- Claim C7 counterexample: two rows whose embedded participant
identifiers disagree with the row foreign keys survive the first pass
under distinct keys, but their re-embedded display rows collide on one
key, so running the reduce-and-sort pass on its own output drops a row:
the pass is not idempotent on arbitrary inputs. -/
theorem fetchDataProcess_not_idempotent_on_skewed_rows :
    fetchDataProcess ((fetchDataProcess [rowSkewA, rowSkewB]).map recapRowToRaw) ≠
      fetchDataProcess [rowSkewA, rowSkewB] := by
  decide

/-- Claim C7 (amended): on join-consistent inputs (each embedded
participant identifier equals the corresponding foreign key, which the
database join guarantees) the reduce-and-sort pass is idempotent:
re-running it on its own re-embedded output returns that output. -/
theorem fetchDataProcess_idempotent_of_joinConsistent (l : List RawRatingRow)
    (h : l.all joinConsistent = true) :
    fetchDataProcess ((fetchDataProcess l).map recapRowToRaw) = fetchDataProcess l := by
  have hroundkey : ∀ v ∈ (latestMap l).map Prod.snd,
      ratingKey (recapRowToRaw (toRecapRow v)) = ratingKey v := by
    intro v hv
    rcases latestMap_values_consistent l h v hv with ⟨h1, h2⟩
    show v.rater.nrp ++ "-" ++ v.ratee.nrp = v.rater_id ++ "-" ++ v.ratee_id
    rw [h1, h2]
  have hkeys2 : (((fetchDataProcess l).map recapRowToRaw).map ratingKey).Nodup := by
    rw [List.map_map]
    have hperm : ((fetchDataProcess l).map (ratingKey ∘ recapRowToRaw)).Perm
        ((((latestMap l).map Prod.snd).map toRecapRow).map (ratingKey ∘ recapRowToRaw)) :=
      (sortRows_perm (((latestMap l).map Prod.snd).map toRecapRow)).map (ratingKey ∘ recapRowToRaw)
    refine hperm.nodup_iff.mpr ?_
    rw [List.map_map]
    have heq : (((latestMap l).map Prod.snd).map ((ratingKey ∘ recapRowToRaw) ∘ toRecapRow)) =
        ((latestMap l).map Prod.snd).map ratingKey :=
      List.map_congr_left fun v hv => hroundkey v hv
    rw [heq]
    exact latestMap_values_keys_nodup l
  have hsecond : latestMap ((fetchDataProcess l).map recapRowToRaw) =
      ((fetchDataProcess l).map recapRowToRaw).map (fun r => (ratingKey r, r)) :=
    latestMap_nodup_keys _ hkeys2
  have hvals : (latestMap ((fetchDataProcess l).map recapRowToRaw)).map Prod.snd =
      (fetchDataProcess l).map recapRowToRaw := by
    rw [hsecond, List.map_map]
    simp
  show sortRows (((latestMap ((fetchDataProcess l).map recapRowToRaw)).map Prod.snd).map
    toRecapRow) = fetchDataProcess l
  rw [hvals, List.map_map]
  have hid : ((fetchDataProcess l).map (toRecapRow ∘ recapRowToRaw)) = fetchDataProcess l := by
    rw [show toRecapRow ∘ recapRowToRaw = id from funext toRecapRow_recapRowToRaw, List.map_id]
  rw [hid]
  exact sortRows_of_sorted (fetchDataProcess l)
    (sortRows_sorted (((latestMap l).map Prod.snd).map toRecapRow))

/-- Claim C7 (amended) witness: a concrete join-consistent input
instantiates the idempotence theorem. -/
theorem fetchDataProcess_idempotent_of_joinConsistent_witness :
    [rowOld, rowNew].all joinConsistent = true ∧
    fetchDataProcess ((fetchDataProcess [rowOld, rowNew]).map recapRowToRaw) =
      fetchDataProcess [rowOld, rowNew] :=
  ⟨by decide, fetchDataProcess_idempotent_of_joinConsistent [rowOld, rowNew] (by decide)⟩

/-- Claim C10: the pairs (a-b, c) and (a, b-c) are distinct but share
the composite key a-b-c, and the reducer emits a single output row for
the two distinct pairs. -/
theorem ratingKey_collision_merges_pairs :
    ratingKey rowKeyA = ratingKey rowKeyB ∧
    rowKeyA.rater_id ≠ rowKeyB.rater_id ∧ rowKeyA.ratee_id ≠ rowKeyB.ratee_id ∧
    (fetchDataProcess [rowKeyA, rowKeyB]).length = 1 := by
  decide

/-- Claim C3 counterexample: a form whose score is the non-integer five
halves, with all required fields non-empty, is accepted by the
RatingSchema (which checks only min(1).max(5), not integrality) and the
submission issues an insert, so the claim that only integer scores pass
validation is false on this input. -/
theorem ratingSchema_accepts_noninteger_score :
    ratingSchemaAccepts invalidScoreForm = true ∧
    invalidScoreForm.ratingScore.den ≠ 1 ∧
    (submitFlow { form := invalidScoreForm, groups := [], participants := [] } true).2 ≠ [] := by
  decide

/-- Claim C3 (amended): the RatingSchema accepts exactly when the four
identifiers are non-empty and the score lies in the interval from 1 to
5 (integrality is not checked client-side), and whenever it rejects,
handleSubmit issues no insert and leaves the state unchanged. -/
theorem ratingSchema_characterization (f : RatingFormData) (s : FormState) (wOk : Bool) :
    (ratingSchemaAccepts f = true ↔
      (f.classId ≠ "" ∧ f.groupId ≠ "" ∧ f.raterId ≠ "" ∧ f.rateeId ≠ "" ∧
        (1 : ℚ) ≤ f.ratingScore ∧ f.ratingScore ≤ (5 : ℚ))) ∧
    (ratingSchemaAccepts s.form = false → submitFlow s wOk = (s, [])) := by
  constructor
  · have hlen : ∀ t : String, 1 ≤ t.length ↔ t ≠ "" := by
      intro t
      cases t with
      | mk data => cases data <;> simp [String.length, String.ext_iff]
    unfold ratingSchemaAccepts
    simp only [Bool.and_eq_true, decide_eq_true_eq]
    rw [hlen, hlen, hlen, hlen]
    tauto
  · intro hrej
    simp [submitFlow, hrej]

/-- Claim C3 (amended) witness: a form with an empty class selection is
rejected and no insert is issued. -/
theorem ratingSchema_characterization_witness :
    submitFlow { form := emptyClassForm, groups := [], participants := [] } true =
      ({ form := emptyClassForm, groups := [], participants := [] }, []) :=
  (ratingSchema_characterization emptyClassForm
    { form := emptyClassForm, groups := [], participants := [] } true).2 (by decide)

/-- Claim C4 counterexample: changing the class selection to a new
non-empty value leaves the previously fetched group option list in
place until the new fetch resolves, so the claim that the group option
list is immediately cleared is false on this state. -/
theorem classChange_groups_not_cleared :
    (classChange demoState "C2").groups ≠ [] ∧ "C2" ≠ demoState.form.classId := by
  decide

/-- Claim C4 (amended): a class selection change immediately clears the
group, rater and ratee selections and the participant option list; the
group option list is cleared immediately only when the new selection is
empty, and otherwise keeps its previous contents until the fetch
resolves. -/
theorem classChange_state_effects (s : FormState) (c : String) :
    (classChange s c).form.classId = c ∧
    (classChange s c).form.groupId = "" ∧
    (classChange s c).form.raterId = "" ∧
    (classChange s c).form.rateeId = "" ∧
    (classChange s c).participants = [] ∧
    (classChange s c).groups = (if c = "" then [] else s.groups) := by
  unfold classChange clearDependentOnClass fetchGroupsGuard
  by_cases hc : c = "" <;> simp [hc]

/-- Claim C8: when validation passes and the write succeeds, the
submission issues exactly one insert carrying rater_id, ratee_id,
rating_score and rating_comment and resets the form to its defaults
(score 3, all selections empty); when validation fails or the write
fails, the form state is left unchanged. -/
theorem submitFlow_insert_and_reset (s : FormState) (wOk : Bool) :
    (ratingSchemaAccepts s.form = true → wOk = true →
      submitFlow s wOk =
        ({ s with form := resetForm },
          [{ rater_id := s.form.raterId, ratee_id := s.form.rateeId,
             rating_score := s.form.ratingScore, rating_comment := s.form.ratingComment }]) ∧
      resetForm.ratingScore = 3 ∧ resetForm.classId = "" ∧ resetForm.groupId = "" ∧
      resetForm.raterId = "" ∧ resetForm.rateeId = "") ∧
    ((ratingSchemaAccepts s.form = false ∨ wOk = false) → (submitFlow s wOk).1 = s) := by
  constructor
  · intro hacc hok
    subst hok
    exact ⟨by simp [submitFlow, hacc], rfl, rfl, rfl, rfl, rfl⟩
  · intro hfail
    rcases hfail with hf | hf
    · simp [submitFlow, hf]
    · subst hf
      by_cases hacc : ratingSchemaAccepts s.form <;> simp [submitFlow, hacc]

/-- Claim C8 witness: the concrete valid demo state instantiates both
the success branch (one insert, reset) and the write-failure branch
(state unchanged). -/
theorem submitFlow_insert_and_reset_witness :
    submitFlow demoState true =
      ({ demoState with form := resetForm },
        [{ rater_id := demoState.form.raterId, ratee_id := demoState.form.rateeId,
           rating_score := demoState.form.ratingScore,
           rating_comment := demoState.form.ratingComment }]) ∧
    (submitFlow demoState false).1 = demoState :=
  ⟨((submitFlow_insert_and_reset demoState true).1 (by decide) rfl).1,
    (submitFlow_insert_and_reset demoState false).2 (Or.inr rfl)⟩

/-- Claim C9: the computed ratee option list never contains a
participant whose nrp equals the currently selected rater. -/
theorem rateeOptions_excludes_rater (participants : List ParticipantOpt) (selectedRater : String) :
    (rateeOptions participants selectedRater).all (fun p => p.nrp != selectedRater) = true := by
  rw [List.all_eq_true]
  intro p hp
  unfold rateeOptions at hp
  exact (List.mem_filter.mp hp).2
